import Mathlib

/-!
# Verification of the resume-scoring core of `src/app.py`

A shallow embedding of the pure scoring pipeline of the repository:
text normalization (`preprocess_text`), lexical-density scoring
(`calculate_keyword_score`), the ATS heuristic (`calculate_ats_score`),
the semantic-similarity wrapper (`calculate_similarity_score`), the two
fit classifiers (`categorize_fit`, `categorize_jd_fit`) and the scoring
part of the upload handler (`upload_resume`).

Modelling conventions:
* Python strings are Lean `String`s, handled through their `List Char` data.
* Python floats are modelled as rationals `ℚ`; Python 3 `round(x, 2)`
  (banker's rounding) is `round2`.
* The regex class `\s` and `str.strip` whitespace are modelled by
  `Char.isWhitespace`; the class `\w` by ASCII letters, digits and `_`
  (`Char.isAlphanum`), and `str.lower` by `Char.toLower`: the ASCII
  fragments of their Unicode-aware Python counterparts.
* The sentence-transformer embedding model is external; it enters the
  embedding as an abstract cosine-similarity oracle
  `cos_sim : String → String → ℚ`, constrained only where a claim
  constrains it (bounded by `[-1, 1]`, symmetric, ...).
-/

/-- The whitespace test used for `str.strip` and the regex class `\s`. -/
def isWS (c : Char) : Bool := c.isWhitespace

/-- The regex class `\w` (word characters): letters, digits, underscore. -/
def isWordChar (c : Char) : Bool := c.isAlphanum || c == '_'

/-- Python 3 `round` to the nearest integer with ties to even
(banker's rounding), modelled on rationals. -/
def pyRoundInt (q : ℚ) : ℤ :=
  if q - ⌊q⌋ < 1/2 then ⌊q⌋
  else if 1/2 < q - ⌊q⌋ then ⌊q⌋ + 1
  else if Even ⌊q⌋ then ⌊q⌋ else ⌊q⌋ + 1

/-- Python `round(x, 2)`: round to two decimal places. -/
def round2 (q : ℚ) : ℚ := (pyRoundInt (q * 100) : ℚ) / 100

/-- Python `str.strip()`: drop leading and trailing whitespace. -/
def pyStrip (l : List Char) : List Char :=
  ((l.dropWhile isWS).reverse.dropWhile isWS).reverse

/-- First half of `re.sub(r"\s+", " ", ·)`: send every whitespace
character to a plain space. -/
def wsToSpace (c : Char) : Char := if isWS c then ' ' else c

/-- Second half of `re.sub(r"\s+", " ", ·)`: collapse adjacent spaces,
keeping the last space of each run. -/
def squeezeSpaces : List Char → List Char
  | [] => []
  | [c] => [c]
  | a :: b :: rest =>
    if a = ' ' ∧ b = ' ' then squeezeSpaces (b :: rest)
    else a :: squeezeSpaces (b :: rest)

/-- `re.sub(r"\s+", " ", ·)`: replace each maximal whitespace run by one
space. -/
def collapseWS (l : List Char) : List Char := squeezeSpaces (l.map wsToSpace)

/-- `preprocess_text` from `src/app.py` (lines 17–20): lower-case, strip,
collapse whitespace runs to single spaces. -/
def preprocess_text (s : String) : String :=
  ⟨collapseWS (pyStrip (s.data.map Char.toLower))⟩

/-- Left-to-right scanner behind `findWords`: `acc` holds the reversed
word run currently being read. -/
def findWordsAux : List Char → List Char → List (List Char)
  | [], acc => if acc = [] then [] else [acc.reverse]
  | c :: rest, acc =>
    if isWordChar c then findWordsAux rest (c :: acc)
    else if acc = [] then findWordsAux rest []
    else acc.reverse :: findWordsAux rest []

/-- `re.findall(r"\w+", ·)`: the maximal runs of word characters, in
order, as the token list of a text. -/
def findWords (l : List Char) : List (List Char) := findWordsAux l []

/-- `calculate_keyword_score` from `src/app.py` (lines 30–33): the
lexical-density score, `round(unique/total * 100, 2)`, and `0` when the
text has no word tokens. -/
def calculate_keyword_score (resume_text : String) : ℚ :=
  let words := findWords (resume_text.data.map Char.toLower)
  if words = [] then 0
  else round2 (((words.toFinset.card : ℚ) / (words.length : ℚ)) * 100)

/-- `calculate_similarity_score` from `src/app.py` (lines 35–40), with the
embedding model abstracted into a cosine-similarity oracle `cos_sim`:
return `0` when the job text strips to empty, otherwise
`round(cos * 100, 2)`.  Note the code strips only `job_text`, never
`resume_text`. -/
def calculate_similarity_score (cos_sim : String → String → ℚ)
    (resume_text job_text : String) : ℚ :=
  if pyStrip job_text.data = [] then 0
  else round2 (cos_sim resume_text job_text * 100)

/-- `categorize_fit` from `src/app.py` (lines 42–52): the ATS-fit
threshold table. -/
def categorize_fit (score : ℚ) : String :=
  if 90 ≤ score then "Excellent Fit"
  else if 80 ≤ score ∧ score < 90 then "Very Good Fit"
  else if 70 ≤ score ∧ score < 80 then "Good Fit"
  else if 60 ≤ score ∧ score < 70 then "Average Fit"
  else "Not Fit"

/-- `categorize_jd_fit` from `src/app.py` (lines 54–62): the JD-fit
threshold table (no Very Good tier). -/
def categorize_jd_fit (score : ℚ) : String :=
  if 80 ≤ score then "Excellent Fit"
  else if 70 ≤ score ∧ score < 80 then "Good Fit"
  else if 60 ≤ score ∧ score < 70 then "Average Fit"
  else "Not Fit"

/-- The result of `check_color_alignment_fonts` (lines 64–94): the list of
distinct colors used, the three alignment counters, and the fonts used.
Color and font values are opaque; only the color count feeds the score. -/
structure ColorAnalysis where
  colors_used : List String
  alignment_left : ℕ
  alignment_center : ℕ
  alignment_right : ℕ
  fonts_used : List String
deriving DecidableEq, Repr

/-- `calculate_ats_score` from `src/app.py` (lines 96–106): lexical
density minus a capped color penalty minus an alignment penalty, floored
at 0. -/
def calculate_ats_score (resume_text : String) (color_analysis : ColorAnalysis) : ℚ :=
  let words := findWords (resume_text.data.map Char.toLower)
  let text_score : ℚ :=
    if words = [] then 0
    else round2 (((words.toFinset.card : ℚ) / (words.length : ℚ)) * 100)
  let color_penalty : ℚ := min ((color_analysis.colors_used.length : ℚ) * 2) 10
  let total_alignments : ℕ :=
    color_analysis.alignment_left + color_analysis.alignment_center +
      color_analysis.alignment_right
  let left_share : ℚ :=
    if total_alignments ≠ 0 then (color_analysis.alignment_left : ℚ) / (total_alignments : ℚ)
    else 1
  let alignment_penalty : ℚ := (1 - left_share) * 10
  max (text_score - color_penalty - alignment_penalty) 0

/-- The fraction of left-aligned paragraphs as `calculate_ats_score`
computes it: `left / total` when some alignment was counted, else `1`. -/
def leftShare (a : ColorAnalysis) : ℚ :=
  let total := a.alignment_left + a.alignment_center + a.alignment_right
  if total ≠ 0 then (a.alignment_left : ℚ) / (total : ℚ) else 1

/-- The ATS formula exactly as §4.4 of the spec words it, built on the
named Lexical Density Scorer: `text_score` = lexical density,
`color_penalty = min(2·colors, 10)`,
`left_ratio = left/total` if the total is positive else 1,
`alignment_penalty = (1 − left_ratio)·10`, result
`max(text_score − color_penalty − alignment_penalty, 0)`. -/
def ats_score_spec (resume_text : String) (color_analysis : ColorAnalysis) : ℚ :=
  let text_score : ℚ := calculate_keyword_score resume_text
  let color_penalty : ℚ := min (2 * (color_analysis.colors_used.length : ℚ)) 10
  let total_alignments : ℕ :=
    color_analysis.alignment_left + color_analysis.alignment_center +
      color_analysis.alignment_right
  let left_share : ℚ :=
    if 0 < total_alignments then (color_analysis.alignment_left : ℚ) / (total_alignments : ℚ)
    else 1
  let alignment_penalty : ℚ := (1 - left_share) * 10
  max (text_score - color_penalty - alignment_penalty) 0

/-- The score record assembled by `upload_resume` (lines 145–151), in its
serialized field order. -/
structure ScoreRecord where
  ats_score : ℚ
  job_description_score : ℚ
  ats_fit_status : String
  job_description_fit_status : String
deriving DecidableEq, Repr

/-- The scoring body of `upload_resume` (the `try:` block, lines 129–153),
with the external collaborators passed in: the extracted resume text, the
composed job-context string, the structural analysis of the document, and
the cosine oracle.  With these total collaborators the block always
assembles a `ScoreRecord`; the `except` branch is reached only when a
collaborator raises. -/
def upload_resume_scoring (cos_sim : String → String → ℚ) (extracted_text : String)
    (job_context : String) (analysis : ColorAnalysis) : ScoreRecord :=
  let resume_text := preprocess_text extracted_text
  let ats_score := calculate_ats_score resume_text analysis
  let ats_fit_status := categorize_fit ats_score
  let similarity_scores := calculate_similarity_score cos_sim resume_text job_context
  let jd_fit_status := categorize_jd_fit similarity_scores
  { ats_score := ats_score
    job_description_score := similarity_scores
    ats_fit_status := ats_fit_status
    job_description_fit_status := jd_fit_status }

/-! ## Basic bounds for banker's rounding -/

lemma le_pyRoundInt (n : ℤ) (q : ℚ) (h : (n : ℚ) ≤ q) : n ≤ pyRoundInt q := by
  have hf : n ≤ ⌊q⌋ := Int.le_floor.mpr h
  unfold pyRoundInt
  split_ifs <;> omega

lemma pyRoundInt_le (n : ℤ) (q : ℚ) (h : q ≤ (n : ℚ)) : pyRoundInt q ≤ n := by
  have hf : ⌊q⌋ ≤ n := by
    have h' := Int.floor_le_floor h
    simpa using h'
  have hfl : (⌊q⌋ : ℚ) ≤ q := Int.floor_le q
  unfold pyRoundInt
  split_ifs with h1 h2 h3
  · exact hf
  · rcases eq_or_lt_of_le hf with h' | h'
    · exfalso
      rw [h'] at h2
      linarith
    · omega
  · exact hf
  · rcases eq_or_lt_of_le hf with h' | h'
    · exfalso
      push_neg at h1
      rw [h'] at h1
      linarith
    · omega

lemma round2_le (n : ℤ) (q : ℚ) (h : q ≤ (n : ℚ)) : round2 q ≤ (n : ℚ) := by
  unfold round2
  rw [div_le_iff₀ (by norm_num : (0:ℚ) < 100)]
  have h' : pyRoundInt (q * 100) ≤ n * 100 := by
    refine pyRoundInt_le (n * 100) (q * 100) ?_
    push_cast
    linarith
  calc (pyRoundInt (q * 100) : ℚ) ≤ ((n * 100 : ℤ) : ℚ) := by exact_mod_cast h'
    _ = (n : ℚ) * 100 := by push_cast; ring

lemma le_round2 (n : ℤ) (q : ℚ) (h : (n : ℚ) ≤ q) : (n : ℚ) ≤ round2 q := by
  unfold round2
  rw [le_div_iff₀ (by norm_num : (0:ℚ) < 100)]
  have h' : n * 100 ≤ pyRoundInt (q * 100) := by
    refine le_pyRoundInt (n * 100) (q * 100) ?_
    push_cast
    linarith
  calc (n : ℚ) * 100 = ((n * 100 : ℤ) : ℚ) := by push_cast; ring
    _ ≤ (pyRoundInt (q * 100) : ℚ) := by exact_mod_cast h'

/-! ## Bounds for the lexical-density score -/

lemma calculate_keyword_score_bounds (s : String) :
    0 ≤ calculate_keyword_score s ∧ calculate_keyword_score s ≤ 100 := by
  unfold calculate_keyword_score
  set words := findWords (s.data.map Char.toLower) with hw
  by_cases hnil : words = []
  · simp [hnil]
  · rw [if_neg hnil]
    have hlen : 0 < (words.length : ℚ) := by
      have : 0 < words.length := List.length_pos.mpr hnil
      exact_mod_cast this
    have hcard : (words.toFinset.card : ℚ) ≤ (words.length : ℚ) := by
      exact_mod_cast List.toFinset_card_le words
    have hq0 : (0 : ℚ) ≤ (words.toFinset.card : ℚ) / (words.length : ℚ) * 100 := by
      positivity
    have hq100 : (words.toFinset.card : ℚ) / (words.length : ℚ) * 100 ≤ 100 := by
      have hle1 : (words.toFinset.card : ℚ) / (words.length : ℚ) ≤ 1 :=
        (div_le_one hlen).mpr hcard
      nlinarith
    constructor
    · have h0 := le_round2 0 ((words.toFinset.card : ℚ) / (words.length : ℚ) * 100) (by push_cast; linarith)
      simpa using h0
    · have h100 := round2_le 100 ((words.toFinset.card : ℚ) / (words.length : ℚ) * 100) (by push_cast; linarith)
      simpa using h100

/-! ## Bounds for the alignment ratio -/

lemma leftShare_nonneg (a : ColorAnalysis) : 0 ≤ leftShare a := by
  unfold leftShare
  dsimp only
  split_ifs
  · positivity
  · norm_num

lemma leftShare_le_one (a : ColorAnalysis) : leftShare a ≤ 1 := by
  unfold leftShare
  dsimp only
  split_ifs with h
  · apply div_le_one_of_le₀
    · have h1 : a.alignment_left ≤ a.alignment_left + a.alignment_center + a.alignment_right := by
        omega
      exact_mod_cast h1
    · positivity
  · norm_num

/-- `calculate_ats_score` written through its three named ingredients. -/
lemma calculate_ats_score_eq (rt : String) (a : ColorAnalysis) :
    calculate_ats_score rt a =
      max (calculate_keyword_score rt - min ((a.colors_used.length : ℚ) * 2) 10
        - (1 - leftShare a) * 10) 0 := rfl

/-! ## The claims -/

/-- **C1.** For every resume text and every structural-signal record, the
ATS engine computes exactly the spec formula: lexical density, minus
`min(2·colors, 10)`, minus `(1 − left_ratio)·10` with
`left_ratio = left/total` when the total is positive and `1` otherwise,
the result floored at `0`. -/
theorem ats_engine_matches_spec (resume_text : String) (color_analysis : ColorAnalysis) :
    calculate_ats_score resume_text color_analysis = ats_score_spec resume_text color_analysis := by
  unfold calculate_ats_score ats_score_spec calculate_keyword_score
  dsimp only
  rw [mul_comm (2:ℚ) (color_analysis.colors_used.length : ℚ)]
  simp only [Nat.pos_iff_ne_zero]

/-- **C3.** The two fit classifiers implement exactly the two threshold
tables with lower-closed bands: ATS-fit gives Excellent iff `s ≥ 90`,
Very Good iff `80 ≤ s < 90`, Good iff `70 ≤ s < 80`, Average iff
`60 ≤ s < 70`, Not Fit iff `s < 60`; JD-fit gives Excellent iff `s ≥ 80`,
Good iff `70 ≤ s < 80`, Average iff `60 ≤ s < 70`, Not Fit iff `s < 60`,
and never produces the Very Good tier. -/
theorem fit_tables_exact (s : ℚ) :
    (categorize_fit s = "Excellent Fit" ↔ 90 ≤ s)
  ∧ (categorize_fit s = "Very Good Fit" ↔ 80 ≤ s ∧ s < 90)
  ∧ (categorize_fit s = "Good Fit" ↔ 70 ≤ s ∧ s < 80)
  ∧ (categorize_fit s = "Average Fit" ↔ 60 ≤ s ∧ s < 70)
  ∧ (categorize_fit s = "Not Fit" ↔ s < 60)
  ∧ (categorize_jd_fit s = "Excellent Fit" ↔ 80 ≤ s)
  ∧ (categorize_jd_fit s = "Good Fit" ↔ 70 ≤ s ∧ s < 80)
  ∧ (categorize_jd_fit s = "Average Fit" ↔ 60 ≤ s ∧ s < 70)
  ∧ (categorize_jd_fit s = "Not Fit" ↔ s < 60)
  ∧ (categorize_jd_fit s ∈ ["Excellent Fit", "Good Fit", "Average Fit", "Not Fit"]) := by
  unfold categorize_fit categorize_jd_fit
  split_ifs <;> simp_all
  all_goals (repeat' constructor) <;> intros <;> linarith

/-- **C9.** Both fit classifiers are total over every rational score, not
only `[0,100]`: any score below 60 (negative included) yields Not Fit,
any score of 90 or more (80 or more for JD-fit) yields Excellent, and
every score maps to one of the enumerated labels. -/
theorem fit_classifiers_total (s : ℚ) :
    (s < 60 → categorize_fit s = "Not Fit" ∧ categorize_jd_fit s = "Not Fit")
  ∧ (90 ≤ s → categorize_fit s = "Excellent Fit")
  ∧ (80 ≤ s → categorize_jd_fit s = "Excellent Fit")
  ∧ categorize_fit s ∈ ["Excellent Fit", "Very Good Fit", "Good Fit", "Average Fit", "Not Fit"]
  ∧ categorize_jd_fit s ∈ ["Excellent Fit", "Good Fit", "Average Fit", "Not Fit"] := by
  unfold categorize_fit categorize_jd_fit
  split_ifs <;> simp_all
  all_goals (repeat' constructor) <;> intros <;> linarith

/-- Witness for **C9** at the out-of-range scores `-5`, `95` and `85`. -/
theorem fit_classifiers_total_witness :
    (categorize_fit (-5) = "Not Fit" ∧ categorize_jd_fit (-5) = "Not Fit")
  ∧ categorize_fit 95 = "Excellent Fit"
  ∧ categorize_jd_fit 85 = "Excellent Fit" :=
  ⟨(fit_classifiers_total (-5)).1 (by norm_num),
   (fit_classifiers_total 95).2.1 (by norm_num),
   (fit_classifiers_total 85).2.2.1 (by norm_num)⟩

/-- **C5.** If the job-context text is empty after normalization, the
similarity engine returns `0` without consulting the embedding model (the
result is the same under any two oracles), and the resulting JD-fit
classification is Not Fit, regardless of the resume content. -/
theorem similarity_empty_job_context (cos1 cos2 : String → String → ℚ)
    (resume raw_job : String) (h : preprocess_text raw_job = "") :
    calculate_similarity_score cos1 resume (preprocess_text raw_job) = 0
  ∧ calculate_similarity_score cos1 resume (preprocess_text raw_job)
      = calculate_similarity_score cos2 resume (preprocess_text raw_job)
  ∧ categorize_jd_fit (calculate_similarity_score cos1 resume (preprocess_text raw_job))
      = "Not Fit" := by
  rw [h]
  have h0 : ∀ cos : String → String → ℚ, calculate_similarity_score cos resume "" = 0 := by
    intro cos
    unfold calculate_similarity_score
    rw [if_pos (show pyStrip "".data = [] from rfl)]
  rw [h0 cos1, h0 cos2]
  refine ⟨rfl, rfl, ?_⟩
  norm_num [categorize_jd_fit]

/-- Witness for **C5**: a whitespace-only job context under two different
oracles and a non-trivial resume text. -/
theorem similarity_empty_job_context_witness :
    preprocess_text " " = ""
  ∧ (calculate_similarity_score (fun _ _ => 1) "engineer" (preprocess_text " ") = 0
  ∧ calculate_similarity_score (fun _ _ => 1) "engineer" (preprocess_text " ")
      = calculate_similarity_score (fun _ _ => 0) "engineer" (preprocess_text " ")
  ∧ categorize_jd_fit (calculate_similarity_score (fun _ _ => 1) "engineer" (preprocess_text " "))
      = "Not Fit") :=
  ⟨by decide,
   similarity_empty_job_context (fun _ _ => 1) (fun _ _ => 0) "engineer" " " (by decide)⟩

/-- **C6.** The lexical-density scorer tokenizes with the word-character
regex and returns `unique/total · 100` rounded to two decimals, returns
`0` when there are no tokens (in particular on the empty string), and its
result always lies in `[0, 100]`. -/
theorem keyword_score_spec (s : String) :
    (calculate_keyword_score s =
      if findWords (s.data.map Char.toLower) = [] then 0
      else round2 ((((findWords (s.data.map Char.toLower)).toFinset.card : ℚ) /
        ((findWords (s.data.map Char.toLower)).length : ℚ)) * 100))
  ∧ 0 ≤ calculate_keyword_score s
  ∧ calculate_keyword_score s ≤ 100
  ∧ calculate_keyword_score "" = 0 :=
  ⟨rfl, (calculate_keyword_score_bounds s).1, (calculate_keyword_score_bounds s).2, rfl⟩

/-- **C7.** Holding the resume text and the alignment counts fixed, the
ATS score is monotonically non-increasing as the number of distinct
colors increases; and holding the resume text and the colors fixed, the
ATS score is monotonically non-increasing as the left-alignment ratio
decreases. -/
theorem ats_score_monotone (rt : String) (a b : ColorAnalysis) :
    (a.alignment_left = b.alignment_left → a.alignment_center = b.alignment_center →
      a.alignment_right = b.alignment_right →
      a.colors_used.length ≤ b.colors_used.length →
      calculate_ats_score rt b ≤ calculate_ats_score rt a)
  ∧ (a.colors_used.length = b.colors_used.length → leftShare a ≤ leftShare b →
      calculate_ats_score rt a ≤ calculate_ats_score rt b) := by
  constructor
  · intro h1 h2 h3 hc
    rw [calculate_ats_score_eq, calculate_ats_score_eq]
    have hls : leftShare a = leftShare b := by
      unfold leftShare
      rw [h1, h2, h3]
    rw [hls]
    have hcq : (a.colors_used.length : ℚ) ≤ (b.colors_used.length : ℚ) := by exact_mod_cast hc
    have hmin : min ((a.colors_used.length : ℚ) * 2) 10 ≤ min ((b.colors_used.length : ℚ) * 2) 10 :=
      min_le_min (by linarith) le_rfl
    exact max_le_max (by linarith) le_rfl
  · intro hc hls
    rw [calculate_ats_score_eq, calculate_ats_score_eq, hc]
    exact max_le_max (by linarith) le_rfl

/-- Witness for **C7**: adding a color, and shifting one paragraph from
left to center, each bring the ATS score down (weakly). -/
theorem ats_score_monotone_witness :
    calculate_ats_score "skills" ⟨["red"], 1, 0, 0, []⟩
      ≤ calculate_ats_score "skills" ⟨[], 1, 0, 0, []⟩
  ∧ calculate_ats_score "skills" ⟨[], 1, 1, 0, []⟩
      ≤ calculate_ats_score "skills" ⟨[], 1, 0, 0, []⟩ :=
  ⟨(ats_score_monotone "skills" ⟨[], 1, 0, 0, []⟩ ⟨["red"], 1, 0, 0, []⟩).1
      rfl rfl rfl (by norm_num),
   (ats_score_monotone "skills" ⟨[], 1, 1, 0, []⟩ ⟨[], 1, 0, 0, []⟩).2
      rfl (by norm_num [leftShare])⟩

/-- **C2** (amended). Over any embedding provider whose cosine similarity
lies in `[-1, 1]`, the emitted similarity score lies in `[-100, 100]`.
The code applies no clamp, so negative cosines give negative scores and
the claimed invariant `[0, 100]` fails (see
`similarity_score_not_clamped`). -/
theorem similarity_score_range (cos_sim : String → String → ℚ)
    (hcos : ∀ A B, -1 ≤ cos_sim A B ∧ cos_sim A B ≤ 1) (A B : String) :
    -100 ≤ calculate_similarity_score cos_sim A B
  ∧ calculate_similarity_score cos_sim A B ≤ 100 := by
  unfold calculate_similarity_score
  split_ifs with h
  · norm_num
  · obtain ⟨h1, h2⟩ := hcos A B
    constructor
    · have h3 := le_round2 (-100) (cos_sim A B * 100) (by push_cast; linarith)
      simpa using h3
    · have h3 := round2_le 100 (cos_sim A B * 100) (by push_cast; linarith)
      simpa using h3

/-- Witness for **C2** with a bounded oracle on concrete texts. -/
theorem similarity_score_range_witness :
    -100 ≤ calculate_similarity_score (fun _ _ => (1/2 : ℚ)) "python developer" "java developer"
  ∧ calculate_similarity_score (fun _ _ => (1/2 : ℚ)) "python developer" "java developer" ≤ 100 :=
  similarity_score_range (fun _ _ => (1/2 : ℚ)) (fun _ _ => by norm_num)
    "python developer" "java developer"

/-- Counterexample to **C2** as stated: under an admissible cosine oracle
(constantly `-1`, which is symmetric and within `[-1, 1]`), the emitted
similarity score is `-100`, strictly below `0` — the `similarity_score`
field is not clamped to `[0, 100]`. -/
theorem similarity_score_not_clamped :
    calculate_similarity_score (fun _ _ => (-1 : ℚ)) "python developer" "java developer" = -100
  ∧ calculate_similarity_score (fun _ _ => (-1 : ℚ)) "python developer" "java developer" < 0 := by
  have h : calculate_similarity_score (fun _ _ => (-1 : ℚ)) "python developer" "java developer"
      = -100 := by
    unfold calculate_similarity_score
    rw [if_neg (by decide : ¬ pyStrip "java developer".data = [])]
    norm_num [round2, pyRoundInt]
  exact ⟨h, by rw [h]; norm_num⟩

/-- **C8** (amended). With a symmetric cosine oracle the similarity engine
is symmetric on every pair of texts that are both empty, or both
non-empty, after stripping.  The one-sided empty check on the job
argument (line 36) breaks symmetry when exactly one text is
whitespace-only (see `similarity_not_symmetric`). -/
theorem similarity_symmetric_on_nonempty (cos_sim : String → String → ℚ)
    (hsym : ∀ A B, cos_sim A B = cos_sim B A) (A B : String)
    (h : pyStrip A.data = [] ↔ pyStrip B.data = []) :
    calculate_similarity_score cos_sim A B = calculate_similarity_score cos_sim B A := by
  unfold calculate_similarity_score
  by_cases hB : pyStrip B.data = []
  · rw [if_pos hB, if_pos (h.mpr hB)]
  · rw [if_neg hB, if_neg (fun hA => hB (h.mp hA)), hsym]

/-- Witness for **C8** on two non-empty texts with a symmetric oracle. -/
theorem similarity_symmetric_on_nonempty_witness :
    calculate_similarity_score (fun _ _ => (1/2 : ℚ)) "python" "java"
      = calculate_similarity_score (fun _ _ => (1/2 : ℚ)) "java" "python" :=
  similarity_symmetric_on_nonempty (fun _ _ => (1/2 : ℚ)) (fun _ _ => rfl) "python" "java"
    (by decide)

/-- Counterexample to **C8** as stated: the constant-1 oracle is
symmetric, yet swapping an empty resume text with a non-empty job text
changes the score from 100 to 0, because only the job argument is
empty-checked. -/
theorem similarity_not_symmetric :
    calculate_similarity_score (fun _ _ => (1 : ℚ)) "" "engineer" = 100
  ∧ calculate_similarity_score (fun _ _ => (1 : ℚ)) "engineer" "" = 0 := by
  constructor
  · unfold calculate_similarity_score
    rw [if_neg (by decide : ¬ pyStrip "engineer".data = [])]
    norm_num [round2, pyRoundInt]
  · unfold calculate_similarity_score
    rw [if_pos (by decide : pyStrip "".data = [])]

/-- Counterexample to **C4** as stated: a submission whose extracted
resume text is empty raises nothing in the `try:` block — the pipeline
assembles and emits a complete `ScoreRecord` (ATS score 0, similarity
still computed from the job context) instead of failing. -/
theorem empty_text_emits_record :
    upload_resume_scoring (fun _ _ => 1) "" "job description: engineer" ⟨[], 0, 0, 0, []⟩
      = { ats_score := 0, job_description_score := 100,
          ats_fit_status := "Not Fit", job_description_fit_status := "Excellent Fit" } := by
  unfold upload_resume_scoring
  dsimp only
  have hpre : preprocess_text "" = "" := rfl
  rw [hpre]
  have hats : calculate_ats_score "" ⟨[], 0, 0, 0, []⟩ = 0 := by
    rw [calculate_ats_score_eq]
    have h1 : calculate_keyword_score "" = 0 := rfl
    have h2 : leftShare ⟨[], 0, 0, 0, []⟩ = 1 := by norm_num [leftShare]
    rw [h1, h2]
    norm_num
  have hsim : calculate_similarity_score (fun _ _ => 1) "" "job description: engineer" = 100 := by
    unfold calculate_similarity_score
    rw [if_neg (by decide : ¬ pyStrip "job description: engineer".data = [])]
    norm_num [round2, pyRoundInt]
  rw [hats, hsim]
  have hfit : categorize_fit 0 = "Not Fit" := by norm_num [categorize_fit]
  have hjd : categorize_jd_fit 100 = "Excellent Fit" := by norm_num [categorize_jd_fit]
  rw [hfit, hjd]

/-- **C4** (amended). The orchestrator performs no empty-text check: on
any submission whose extracted resume text normalizes to empty, the
`try:` block still emits a full `ScoreRecord`, with ATS score 0 and ATS
fit "Not Fit"; a `PipelineError`-style 500 response arises only when a
collaborator raises, not from empty text. -/
theorem empty_text_scores_zero (cos_sim : String → String → ℚ)
    (extracted job_context : String) (analysis : ColorAnalysis)
    (h : preprocess_text extracted = "") :
    (upload_resume_scoring cos_sim extracted job_context analysis).ats_score = 0
  ∧ (upload_resume_scoring cos_sim extracted job_context analysis).ats_fit_status
      = "Not Fit" := by
  unfold upload_resume_scoring
  dsimp only
  rw [h]
  have hats : calculate_ats_score "" analysis = 0 := by
    rw [calculate_ats_score_eq]
    have h1 : calculate_keyword_score "" = 0 := rfl
    rw [h1]
    have h2 := leftShare_nonneg analysis
    have h3 := leftShare_le_one analysis
    have h4 : (0:ℚ) ≤ min ((analysis.colors_used.length : ℚ) * 2) 10 :=
      le_min (by positivity) (by norm_num)
    have h5 : (0:ℚ) ≤ (1 - leftShare analysis) * 10 :=
      mul_nonneg (by linarith) (by norm_num)
    rw [max_eq_right (by linarith)]
  rw [hats]
  exact ⟨rfl, by norm_num [categorize_fit]⟩

/-- Witness for **C4** (amended): whitespace-only extracted text, an
arbitrary oracle and analysis. -/
theorem empty_text_scores_zero_witness :
    (upload_resume_scoring (fun _ _ => 1/2) " " "engineer" ⟨["red"], 0, 2, 1, []⟩).ats_score = 0
  ∧ (upload_resume_scoring (fun _ _ => 1/2) " " "engineer" ⟨["red"], 0, 2, 1, []⟩).ats_fit_status
      = "Not Fit" :=
  empty_text_scores_zero (fun _ _ => 1/2) " " "engineer" ⟨["red"], 0, 2, 1, []⟩ (by decide)

/-! ## Idempotence of the text normalizer -/

lemma charOfNat_toNat (n : ℕ) (h : Nat.isValidChar n) : (Char.ofNat n).toNat = n := by
  simp [Char.ofNat, h, Char.toNat, Char.ofNatAux, UInt32.ofNat', UInt32.toNat, BitVec.toNat_ofNatLt]

lemma toLower_toLower (c : Char) : Char.toLower (Char.toLower c) = Char.toLower c := by
  unfold Char.toLower
  by_cases h : c.toNat ≥ 65 ∧ c.toNat ≤ 90
  · rw [if_pos h]
    have hv : Nat.isValidChar (c.toNat + 32) := Or.inl (by omega)
    rw [charOfNat_toNat _ hv, if_neg (by omega)]
  · rw [if_neg h, if_neg h]

lemma wsToSpace_idem (c : Char) : wsToSpace (wsToSpace c) = wsToSpace c := by
  by_cases h : isWS c <;> simp [wsToSpace, h]

lemma mem_squeezeSpaces : ∀ (l : List Char) (c : Char), c ∈ squeezeSpaces l → c ∈ l
  | [], _, h => by simpa [squeezeSpaces] using h
  | [a], _, h => by simpa [squeezeSpaces] using h
  | a :: b :: rest, c, h => by
    simp only [squeezeSpaces] at h
    split_ifs at h with hab
    · exact List.mem_cons_of_mem a (mem_squeezeSpaces (b :: rest) c h)
    · rcases List.mem_cons.mp h with h1 | h1
      · exact h1 ▸ List.mem_cons_self a (b :: rest)
      · exact List.mem_cons_of_mem a (mem_squeezeSpaces (b :: rest) c h1)

lemma mem_pyStrip (l : List Char) (c : Char) (h : c ∈ pyStrip l) : c ∈ l := by
  unfold pyStrip at h
  rw [List.mem_reverse] at h
  have h1 := (List.dropWhile_suffix isWS).sublist.subset h
  rw [List.mem_reverse] at h1
  exact (List.dropWhile_suffix isWS).sublist.subset h1

lemma head?_dropWhile_ws : ∀ (l : List Char) (c : Char),
    (l.dropWhile isWS).head? = some c → isWS c = false
  | [], c, h => by simp at h
  | a :: t, c, h => by
    rw [List.dropWhile_cons] at h
    split_ifs at h with ha
    · exact head?_dropWhile_ws t c h
    · simp only [List.head?_cons, Option.some.injEq] at h
      subst h
      simpa using ha

lemma pyStrip_head (l : List Char) (c : Char) (h : (pyStrip l).head? = some c) :
    isWS c = false := by
  unfold pyStrip at h
  obtain ⟨t, ht⟩ := List.dropWhile_suffix (l := (l.dropWhile isWS).reverse) isWS
  have hu2 : l.dropWhile isWS
      = ((l.dropWhile isWS).reverse.dropWhile isWS).reverse ++ t.reverse := by
    conv_lhs => rw [← List.reverse_reverse (l.dropWhile isWS), ← ht]
    rw [List.reverse_append]
  cases hcons : ((l.dropWhile isWS).reverse.dropWhile isWS).reverse with
  | nil => rw [hcons] at h; simp at h
  | cons x xs =>
    rw [hcons] at h
    simp only [List.head?_cons, Option.some.injEq] at h
    subst h
    have hx : (l.dropWhile isWS).head? = some x := by
      rw [hu2, hcons]
      rfl
    exact head?_dropWhile_ws l x hx

lemma pyStrip_last (l : List Char) (c : Char) (h : (pyStrip l).getLast? = some c) :
    isWS c = false := by
  unfold pyStrip at h
  rw [List.getLast?_reverse] at h
  exact head?_dropWhile_ws _ c h

lemma squeezeSpaces_ne_nil : ∀ (l : List Char), l ≠ [] → squeezeSpaces l ≠ []
  | [], h => absurd rfl h
  | [a], _ => by simp [squeezeSpaces]
  | a :: b :: rest, _ => by
    simp only [squeezeSpaces]
    split_ifs with hab
    · exact squeezeSpaces_ne_nil (b :: rest) (by simp)
    · simp

lemma squeezeSpaces_head_of_ne_space : ∀ (t : List Char) (a : Char), a ≠ ' ' →
    (squeezeSpaces (a :: t)).head? = some a
  | [], a, _ => rfl
  | b :: t, a, ha => by
    simp only [squeezeSpaces]
    rw [if_neg (fun hh => ha hh.1)]
    rfl

lemma squeezeSpaces_getLast? : ∀ (l : List Char), l ≠ [] →
    (squeezeSpaces l).getLast? = l.getLast?
  | [], h => absurd rfl h
  | [a], _ => rfl
  | a :: b :: rest, _ => by
    simp only [squeezeSpaces]
    split_ifs with hab
    · rw [squeezeSpaces_getLast? (b :: rest) (by simp), List.getLast?_cons_cons]
    · obtain ⟨x, xs, hx⟩ :=
        List.exists_cons_of_ne_nil (squeezeSpaces_ne_nil (b :: rest) (by simp))
      rw [hx, List.getLast?_cons_cons, ← hx,
        squeezeSpaces_getLast? (b :: rest) (by simp), List.getLast?_cons_cons]

lemma squeezeSpaces_idem : ∀ (l : List Char),
    squeezeSpaces (squeezeSpaces l) = squeezeSpaces l
  | [] => rfl
  | [a] => rfl
  | a :: b :: rest => by
    simp only [squeezeSpaces]
    split_ifs with hab
    · exact squeezeSpaces_idem (b :: rest)
    · obtain ⟨x, xs, hx⟩ :=
        List.exists_cons_of_ne_nil (squeezeSpaces_ne_nil (b :: rest) (by simp))
      rw [hx]
      by_cases hax : a = ' ' ∧ x = ' '
      · exfalso
        have hb : b ≠ ' ' := fun hb => hab ⟨hax.1, hb⟩
        have hhd := squeezeSpaces_head_of_ne_space rest b hb
        rw [hx] at hhd
        simp only [List.head?_cons, Option.some.injEq] at hhd
        exact hb (hhd ▸ hax.2)
      · simp only [squeezeSpaces]
        rw [if_neg hax]
        congr 1
        rw [← hx]
        exact squeezeSpaces_idem (b :: rest)

lemma pyStrip_eq_self (y : List Char)
    (hh : ∀ c, y.head? = some c → isWS c = false)
    (hl : ∀ c, y.getLast? = some c → isWS c = false) :
    pyStrip y = y := by
  unfold pyStrip
  have h1 : y.dropWhile isWS = y := by
    cases y with
    | nil => rfl
    | cons a t =>
      rw [List.dropWhile_cons, if_neg (by simp [hh a rfl])]
  rw [h1]
  have h2 : y.reverse.dropWhile isWS = y.reverse := by
    cases hy : y.reverse with
    | nil => rfl
    | cons a t =>
      have ha : isWS a = false := by
        apply hl
        rw [← List.head?_reverse, hy]
        rfl
      rw [List.dropWhile_cons, if_neg (by simp [ha])]
  rw [h2, List.reverse_reverse]

lemma collapseWS_head (l : List Char) (c : Char)
    (hh : ∀ x, l.head? = some x → isWS x = false)
    (hc : (collapseWS l).head? = some c) : isWS c = false := by
  cases l with
  | nil =>
    simp only [show collapseWS ([] : List Char) = [] from rfl] at hc
    simp at hc
  | cons a t =>
    have ha : isWS a = false := hh a rfl
    have haw : wsToSpace a = a := by
      unfold wsToSpace
      rw [if_neg (by simp [ha])]
    have has : a ≠ ' ' := by
      intro h
      rw [h] at ha
      exact absurd ha (by decide)
    unfold collapseWS at hc
    rw [List.map_cons, haw, squeezeSpaces_head_of_ne_space _ a has] at hc
    simp only [Option.some.injEq] at hc
    subst hc
    exact ha

lemma collapseWS_last (l : List Char) (c : Char)
    (hl : ∀ x, l.getLast? = some x → isWS x = false)
    (hc : (collapseWS l).getLast? = some c) : isWS c = false := by
  cases l with
  | nil =>
    simp only [show collapseWS ([] : List Char) = [] from rfl] at hc
    simp at hc
  | cons a t =>
    unfold collapseWS at hc
    rw [squeezeSpaces_getLast? _ (by simp), List.getLast?_map] at hc
    cases hg : (a :: t).getLast? with
    | none => rw [hg] at hc; simp at hc
    | some x =>
      rw [hg] at hc
      simp only [Option.map_some', Option.some.injEq] at hc
      have hx := hl x hg
      rw [← hc]
      unfold wsToSpace
      rw [if_neg (by simp [hx])]
      exact hx

/-- Normalizing an already-normalized character list changes nothing:
the list-level core of the idempotence of `preprocess_text`. -/
lemma normalizeChars_idem (l : List Char) :
    collapseWS (pyStrip ((collapseWS (pyStrip (l.map Char.toLower))).map Char.toLower))
      = collapseWS (pyStrip (l.map Char.toLower)) := by
  set w := l.map Char.toLower with hw
  have hmem : ∀ c ∈ collapseWS (pyStrip w), Char.toLower c = c ∧ wsToSpace c = c := by
    intro c hc
    unfold collapseWS at hc
    have hc1 := mem_squeezeSpaces _ c hc
    rw [List.mem_map] at hc1
    obtain ⟨x, hx1, hx2⟩ := hc1
    have hx3 := mem_pyStrip _ x hx1
    rw [hw, List.mem_map] at hx3
    obtain ⟨x0, _, hx0⟩ := hx3
    constructor
    · subst hx2
      unfold wsToSpace
      split_ifs
      · decide
      · rw [← hx0, toLower_toLower]
    · subst hx2
      exact wsToSpace_idem x
  have hlow : (collapseWS (pyStrip w)).map Char.toLower = collapseWS (pyStrip w) := by
    rw [List.map_congr_left (g := id) (fun c hc => (hmem c hc).1), List.map_id]
  have hhead : ∀ c, (collapseWS (pyStrip w)).head? = some c → isWS c = false :=
    fun c hc => collapseWS_head (pyStrip w) c (fun x hx => pyStrip_head w x hx) hc
  have hlast : ∀ c, (collapseWS (pyStrip w)).getLast? = some c → isWS c = false :=
    fun c hc => collapseWS_last (pyStrip w) c (fun x hx => pyStrip_last w x hx) hc
  have hstrip : pyStrip (collapseWS (pyStrip w)) = collapseWS (pyStrip w) :=
    pyStrip_eq_self _ hhead hlast
  have hws : (collapseWS (pyStrip w)).map wsToSpace = collapseWS (pyStrip w) := by
    rw [List.map_congr_left (g := id) (fun c hc => (hmem c hc).2), List.map_id]
  rw [hlow, hstrip]
  unfold collapseWS at hws ⊢
  rw [hws, squeezeSpaces_idem]

/-- **C10.** The text normalizer is idempotent: for every string `s`,
`preprocess_text (preprocess_text s) = preprocess_text s`, so normalizing
an already-normalized text leaves it unchanged. -/
theorem preprocess_text_idempotent (s : String) :
    preprocess_text (preprocess_text s) = preprocess_text s := by
  unfold preprocess_text
  exact congrArg String.mk (normalizeChars_idem s.data)
